import Mathlib

/-!
Shallow embedding of `guardian/core.py` (`ObjectPermissionChecker`), the
object-permission resolution core of django-guardian, together with proofs of
the specification's testable properties.

Modelling conventions:
* A Django `Permission` row is a record of its `content_type` id and
  `codename`; the registered catalog (`Permission.objects.all()`) is a list.
* `UserObjectPermission` / `GroupObjectPermission` rows are grant records
  holding the actor id, the granted `Permission`, and the target's
  `content_type` id and `object_pk`.  The ORM queries in
  `__get_raw_perms` are list filters over these relations.
* An object instance is identified by its `(content_type, pk)` pair, which is
  exactly the data `get_local_cache_key` extracts from it; the optional
  `get_parent_object_permission` attribute is the environment's
  `parents : Obj → Option (List Obj)` (`none` models a missing attribute).
* `get_identity` (guardian.utils) resolves the constructor argument to
  exactly one of user/group; the checker state therefore carries a tagged
  `Identity` plus the `_obj_perms_cache` dict, modelled as an association
  list keyed by `(content_type id, pk)`.
* Python's unbounded `while perm_objs:` loop in `has_perm` is embedded with
  explicit fuel: `none` means the loop did not finish within the given fuel.
* Each function additionally returns the number of grant-store queries
  (`Permission.objects…` round trips) it issued, so that the spec's
  "no additional store query" properties are statable.
-/

namespace Guardian

/-- A registered permission definition: a codename scoped to a content type. -/
structure Permission where
  content_type : Nat
  codename : String
deriving DecidableEq, Repr

/-- A user: activity flag, superuser flag, and ids of the groups it belongs to. -/
structure User where
  id : Nat
  is_active : Bool
  is_superuser : Bool
  groups : List Nat
deriving DecidableEq, Repr

/-- The resolved identity a checker is bound to (output of `get_identity`):
exactly one of a concrete user or a concrete group. -/
inductive Identity where
  | user (u : User)
  | group (g : Nat)
deriving DecidableEq, Repr

/-- An object instance, as the checker observes it: its content-type id and
primary key. -/
structure Obj where
  ctype : Nat
  pk : Nat
deriving DecidableEq, Repr

/-- A direct-to-user grant row (`UserObjectPermission`). -/
structure UserGrant where
  user : Nat
  permission : Permission
  content_type : Nat
  object_pk : Nat
deriving DecidableEq, Repr

/-- A group-mediated grant row (`GroupObjectPermission`). -/
structure GroupGrant where
  group : Nat
  permission : Permission
  content_type : Nat
  object_pk : Nat
deriving DecidableEq, Repr

/-- The external collaborators: the registered permission catalog, the two
grant relations, and the duck-typed parent-delegation capability
(`none` = the object has no `get_parent_object_permission` attribute). -/
structure Env where
  catalog : List Permission
  userGrants : List UserGrant
  groupGrants : List GroupGrant
  parents : Obj → Option (List Obj)

/-- Checker state: the bound identity and `_obj_perms_cache`. -/
structure Checker where
  identity : Identity
  obj_perms_cache : List ((Nat × Nat) × List Permission)
deriving DecidableEq, Repr

/-- `ObjectPermissionChecker.__init__`: bind the identity, start with an
empty `_obj_perms_cache`. -/
def Checker.init (i : Identity) : Checker :=
  { identity := i, obj_perms_cache := [] }

/-- `get_local_cache_key`: `(ctype.id, obj.pk)`. -/
def get_local_cache_key (obj : Obj) : Nat × Nat :=
  (obj.ctype, obj.pk)

/-- The ORM query `Permission.objects.filter(**user_filters)`:
permissions granted directly to user `u` on the object. -/
def userQuery (env : Env) (u : User) (obj : Obj) : List Permission :=
  (env.userGrants.filter fun g =>
    g.user == u.id && g.content_type == obj.ctype && g.object_pk == obj.pk).map
    (·.permission)

/-- The ORM query `Permission.objects.filter(**group_filters)` for a user
identity: permissions granted to any group the user belongs to, on the
object. -/
def groupQuery (env : Env) (u : User) (obj : Obj) : List Permission :=
  (env.groupGrants.filter fun g =>
    u.groups.contains g.group && g.content_type == obj.ctype
      && g.object_pk == obj.pk).map (·.permission)

/-- The ORM query `Permission.objects.filter(**group_filters)` for a group
identity: permissions granted to exactly that group on the object. -/
def groupIdentityQuery (env : Env) (gid : Nat) (obj : Obj) : List Permission :=
  (env.groupGrants.filter fun g =>
    g.group == gid && g.content_type == obj.ctype && g.object_pk == obj.pk).map
    (·.permission)

/-- `ObjectPermissionChecker.__get_raw_perms`: inactive-user veto first, then
the superuser full-catalog shortcut, then the two-query union for an active
non-superuser user, else the single group query. -/
def get_raw_perms (env : Env) (i : Identity) (obj : Obj) : List Permission :=
  match i with
  | .user u =>
    if !u.is_active then []
    else if u.is_superuser then env.catalog
    else userQuery env u obj ++ groupQuery env u obj
  | .group g => groupIdentityQuery env g obj

/-- Number of grant-store queries (`Permission.objects…` round trips) a call
to `__get_raw_perms` issues for the given identity: none for an inactive
user, one catalog enumeration for a superuser, the user/group pair for an
active non-superuser user, one for a group. -/
def storeQueries (i : Identity) : Nat :=
  match i with
  | .user u => if !u.is_active then 0 else if u.is_superuser then 1 else 2
  | .group _ => 1

/-- The projection `get_perms` applies to the cached raw permissions:
`[perm.codename for perm in perms if perm.content_type == ctype]` when
`filter_by_content_type`, else all codenames. -/
def renderPerms (perms : List Permission) (obj : Obj) (fct : Bool) :
    List String :=
  if fct then
    (perms.filter fun p => p.content_type == obj.ctype).map (·.codename)
  else perms.map (·.codename)

/-- `ObjectPermissionChecker.get_perms`: consult `_obj_perms_cache` under
`get_local_cache_key obj`; on a miss compute `__get_raw_perms` and store it;
render the codenames.  Returns the codenames, the updated checker state, and
the number of grant-store queries issued. -/
def get_perms (env : Env) (c : Checker) (obj : Obj) (fct : Bool) :
    List String × Checker × Nat :=
  match c.obj_perms_cache.lookup (get_local_cache_key obj) with
  | some cached => (renderPerms cached obj fct, c, 0)
  | none =>
    let raw := get_raw_perms env c.identity obj
    (renderPerms raw obj fct,
     { c with obj_perms_cache := (get_local_cache_key obj, raw) :: c.obj_perms_cache },
     storeQueries c.identity)

/-- Python `str.split('.')` on the underlying character list: split at every
dot, keeping empty segments, never returning an empty list. -/
def splitDots : List Char → List (List Char)
  | [] => [[]]
  | ch :: rest =>
    if ch = '.' then [] :: splitDots rest
    else
      match splitDots rest with
      | [] => [[ch]]
      | w :: ws => (ch :: w) :: ws

/-- `perm.split('.')[-1]`: the last dot-separated segment of the permission
string (the bare codename). -/
def normPerm (s : String) : String :=
  ⟨(splitDots s.data).getLastD []⟩

/-- The `while perm_objs:` worklist of `has_perm`: pop the last element
(Python `list.pop()`), return true if the (already normalized) permission is
among the object's unfiltered codenames, otherwise append the object's
parents (if the capability is present) and continue.  `none` = the loop did
not finish within `fuel` iterations. -/
def has_perm_loop (env : Env) (perm : String) :
    Nat → Checker → List Obj → Option (Bool × Checker × Nat)
  | 0, _, _ => none
  | fuel + 1, c, objs =>
    match objs.getLast? with
    | none => some (false, c, 0)
    | some obj =>
      let rest := objs.dropLast
      let r := get_perms env c obj false
      if perm ∈ r.1 then some (true, r.2.1, r.2.2)
      else
        let next :=
          match env.parents obj with
          | some ps => rest ++ ps
          | none => rest
        match has_perm_loop env perm fuel r.2.1 next with
        | none => none
        | some (b, c2, q2) => some (b, c2, r.2.2 + q2)

/-- `ObjectPermissionChecker.has_perm`: normalize the permission string, veto
an inactive user, shortcut an active superuser, otherwise run the worklist
starting at `[obj]`. -/
def has_perm (env : Env) (fuel : Nat) (perm : String) (c : Checker)
    (obj : Obj) : Option (Bool × Checker × Nat) :=
  let p := normPerm perm
  match c.identity with
  | .user u =>
    if !u.is_active then some (false, c, 0)
    else if u.is_superuser then some (true, c, 0)
    else has_perm_loop env p fuel c [obj]
  | .group _ => has_perm_loop env p fuel c [obj]

/-- Identities that reach the worklist of `has_perm` instead of being decided
by the inactive/superuser shortcuts: groups, and active non-superuser users. -/
def loopIdentity : Identity → Prop
  | .user u => u.is_active = true ∧ u.is_superuser = false
  | .group _ => True

/-- The parents the traversal appends for an object: the capability's result,
or nothing when the capability is absent. -/
def parentsOf (env : Env) (o : Obj) : List Obj :=
  (env.parents o).getD []

/-- Objects reachable from `root` along the parent-delegation relation. -/
inductive Reach (env : Env) (root : Obj) : Obj → Prop
  | refl : Reach env root root
  | step {o o' : Obj} : Reach env root o → o' ∈ parentsOf env o →
      Reach env root o'

/-- Size of the depth-`k` unfolding of the parent-delegation tree below an
object; used as the fuel bound in the termination proof. -/
def tbound (env : Env) : Nat → Obj → Nat
  | 0, _ => 1
  | k + 1, o => 1 + ((parentsOf env o).map (tbound env k)).sum

/-! ### Concrete fixtures -/

def viewPerm : Permission := ⟨1, "view"⟩

/-- A permission whose own declared content type (2) differs from the content
type (1) a grant can attach it to. -/
def otherTypePerm : Permission := ⟨2, "view"⟩

def objW : Obj := ⟨1, 7⟩

def activeUser : User := ⟨10, true, false, [1]⟩

def inactiveSuper : User := ⟨11, false, true, []⟩

def superUser : User := ⟨12, true, true, []⟩

/-- The spec's scenario: group 1 (containing `activeUser`) holds "view" on
the object of type 1 with pk 7. -/
def envW : Env :=
  ⟨[viewPerm], [], [⟨1, viewPerm, 1, 7⟩], fun _ => none⟩

/-- A store where `activeUser` holds a direct grant on `objW` whose
permission is declared for a different content type. -/
def envM : Env :=
  ⟨[otherTypePerm], [⟨10, otherTypePerm, 1, 7⟩], [], fun _ => none⟩

def o1W : Obj := ⟨1, 1⟩

def o2W : Obj := ⟨1, 2⟩

def o3W : Obj := ⟨1, 3⟩

/-- A three-object parent chain `o3W → o2W → o1W` with the only grant (for
`activeUser`, directly) sitting on `o1W`. -/
def chainEnv : Env :=
  ⟨[viewPerm], [⟨10, viewPerm, 1, 1⟩], [],
   fun o => if o = o3W then some [o2W] else if o = o2W then some [o1W] else none⟩

def cycObj : Obj := ⟨0, 0⟩

/-- A store with no grants and a self-loop in the parent relation at
`cycObj`. -/
def cycEnv : Env :=
  ⟨[], [], [], fun o => if o = cycObj then some [cycObj] else none⟩

/-! ### Cache-extension order and basic `get_perms` facts -/

/-- `c'` extends `c`: same identity, and every cache entry of `c` is present
unchanged in `c'`. -/
def CacheLe (c c' : Checker) : Prop :=
  c'.identity = c.identity ∧
  ∀ k v, c.obj_perms_cache.lookup k = some v →
    c'.obj_perms_cache.lookup k = some v

lemma CacheLe.refl (c : Checker) : CacheLe c c :=
  ⟨rfl, fun _ _ h => h⟩

lemma CacheLe.trans {a b c : Checker} (h₁ : CacheLe a b) (h₂ : CacheLe b c) :
    CacheLe a c :=
  ⟨h₂.1.trans h₁.1, fun k v h => h₂.2 k v (h₁.2 k v h)⟩

lemma get_perms_cached {env : Env} {c : Checker} {obj : Obj} {fct : Bool}
    {v : List Permission}
    (h : c.obj_perms_cache.lookup (get_local_cache_key obj) = some v) :
    get_perms env c obj fct = (renderPerms v obj fct, c, 0) := by
  unfold get_perms
  rw [h]

lemma get_perms_uncached {env : Env} {c : Checker} {obj : Obj} {fct : Bool}
    (h : c.obj_perms_cache.lookup (get_local_cache_key obj) = none) :
    get_perms env c obj fct =
      (renderPerms (get_raw_perms env c.identity obj) obj fct,
       { c with obj_perms_cache :=
          (get_local_cache_key obj, get_raw_perms env c.identity obj) ::
            c.obj_perms_cache },
       storeQueries c.identity) := by
  unfold get_perms
  rw [h]

/-- After any `get_perms` call the cache holds a raw list for the object's
key, the returned codenames are its rendering, and the state extends the
input state. -/
lemma get_perms_spec (env : Env) (c : Checker) (obj : Obj) (fct : Bool) :
    ∃ raw,
      (get_perms env c obj fct).2.1.obj_perms_cache.lookup
          (get_local_cache_key obj) = some raw ∧
      (get_perms env c obj fct).1 = renderPerms raw obj fct ∧
      CacheLe c (get_perms env c obj fct).2.1 := by
  cases h : c.obj_perms_cache.lookup (get_local_cache_key obj) with
  | some v =>
    exact ⟨v, by rw [get_perms_cached h]; exact h,
      by rw [get_perms_cached h], by rw [get_perms_cached h]; exact .refl c⟩
  | none =>
    refine ⟨get_raw_perms env c.identity obj, ?_, ?_, ?_, ?_⟩
    · rw [get_perms_uncached h]
      simp [List.lookup]
    · rw [get_perms_uncached h]
    · rw [get_perms_uncached h]
    · intro k v hk
      rw [get_perms_uncached h]
      simp only [List.lookup]
      have hne : (k == get_local_cache_key obj) = false := by
        rcases hbe : k == get_local_cache_key obj with _ | _
        · rfl
        · rw [eq_of_beq hbe] at hk
          rw [hk] at h
          cases h
      rw [hne]
      exact hk

/-! ### Worklist lemmas -/

lemma has_perm_loop_cacheLe (env : Env) (perm : String) :
    ∀ (fuel : Nat) (c : Checker) (objs : List Obj) {r : Bool} {c' : Checker}
      {q : Nat}, has_perm_loop env perm fuel c objs = some (r, c', q) →
      CacheLe c c' := by
  intro fuel
  induction fuel with
  | zero => intro c objs r c' q h; cases h
  | succ fuel ih =>
    intro c objs r c' q h
    simp only [has_perm_loop] at h
    rcases hL : objs.getLast? with _ | obj
    · rw [hL] at h
      simp only [] at h
      cases h
      exact .refl c
    · rw [hL] at h
      simp only [] at h
      obtain ⟨raw, hraw, hfst, hle⟩ := get_perms_spec env c obj false
      by_cases hmem : perm ∈ (get_perms env c obj false).1
      · rw [if_pos hmem] at h
        cases h
        exact hle
      · rw [if_neg hmem] at h
        rcases hrec : has_perm_loop env perm fuel (get_perms env c obj false).2.1
            (match env.parents obj with
             | some ps => objs.dropLast ++ ps
             | none => objs.dropLast) with _ | ⟨b, c2, q2⟩
        · rw [hrec] at h
          cases h
        · rw [hrec] at h
          simp only [] at h
          cases h
          exact hle.trans (ih _ _ hrec)

lemma has_perm_loop_stable (env : Env) (perm : String) :
    ∀ (fuel : Nat) (c : Checker) (objs : List Obj) {r : Bool} {c' : Checker}
      {q : Nat}, has_perm_loop env perm fuel c objs = some (r, c', q) →
      has_perm_loop env perm fuel c' objs = some (r, c', 0) := by
  intro fuel
  induction fuel with
  | zero => intro c objs r c' q h; cases h
  | succ fuel ih =>
    intro c objs r c' q h
    simp only [has_perm_loop] at h ⊢
    rcases hL : objs.getLast? with _ | obj
    · rw [hL] at h
      simp only [] at h
      cases h
      rfl
    · rw [hL] at h
      simp only [] at h
      obtain ⟨raw, hraw, hfst, hle⟩ := get_perms_spec env c obj false
      by_cases hmem : perm ∈ (get_perms env c obj false).1
      · rw [if_pos hmem] at h
        cases h
        have hcached : get_perms env (get_perms env c obj false).2.1 obj false =
            ((get_perms env c obj false).1, (get_perms env c obj false).2.1, 0) := by
          rw [get_perms_cached hraw, ← hfst]
        simp only []
        rw [hcached]
        simp only []
        rw [if_pos hmem]
      · rw [if_neg hmem] at h
        rcases hrec : has_perm_loop env perm fuel (get_perms env c obj false).2.1
            (match env.parents obj with
             | some ps => objs.dropLast ++ ps
             | none => objs.dropLast) with _ | ⟨b, c2, q2⟩
        · rw [hrec] at h
          cases h
        · rw [hrec] at h
          simp only [] at h
          cases h
          have hle2 : CacheLe (get_perms env c obj false).2.1 c' :=
            has_perm_loop_cacheLe env perm fuel _ _ hrec
          have hcached : get_perms env c' obj false =
              ((get_perms env c obj false).1, c', 0) := by
            rw [get_perms_cached (hle2.2 _ _ hraw), ← hfst]
          simp only []
          rw [hcached]
          simp only []
          rw [if_neg hmem]
          rw [ih _ _ hrec]

/-! ### Branch lemmas for `has_perm` -/

lemma has_perm_user_inactive {env : Env} {fuel : Nat} {perm : String}
    {c : Checker} {obj : Obj} {u : User} (hid : c.identity = .user u)
    (ha : u.is_active = false) :
    has_perm env fuel perm c obj = some (false, c, 0) := by
  unfold has_perm
  rw [hid]
  simp [ha]

lemma has_perm_user_superuser {env : Env} {fuel : Nat} {perm : String}
    {c : Checker} {obj : Obj} {u : User} (hid : c.identity = .user u)
    (ha : u.is_active = true) (hs : u.is_superuser = true) :
    has_perm env fuel perm c obj = some (true, c, 0) := by
  unfold has_perm
  rw [hid]
  simp [ha, hs]

lemma has_perm_user_active {env : Env} {fuel : Nat} {perm : String}
    {c : Checker} {obj : Obj} {u : User} (hid : c.identity = .user u)
    (ha : u.is_active = true) (hs : u.is_superuser = false) :
    has_perm env fuel perm c obj =
      has_perm_loop env (normPerm perm) fuel c [obj] := by
  unfold has_perm
  rw [hid]
  simp [ha, hs]

lemma has_perm_group {env : Env} {fuel : Nat} {perm : String} {c : Checker}
    {obj : Obj} {g : Nat} (hid : c.identity = .group g) :
    has_perm env fuel perm c obj =
      has_perm_loop env (normPerm perm) fuel c [obj] := by
  unfold has_perm
  rw [hid]

lemma has_perm_cacheLe {env : Env} {fuel : Nat} {perm : String} {c : Checker}
    {obj : Obj} {r : Bool} {c' : Checker} {q : Nat}
    (h : has_perm env fuel perm c obj = some (r, c', q)) : CacheLe c c' := by
  cases hid : c.identity with
  | user u =>
    rcases hact : u.is_active with _ | _
    · rw [has_perm_user_inactive hid hact] at h
      cases h
      exact .refl c
    · rcases hsup : u.is_superuser with _ | _
      · rw [has_perm_user_active hid hact hsup] at h
        exact has_perm_loop_cacheLe env (normPerm perm) fuel c [obj] h
      · rw [has_perm_user_superuser hid hact hsup] at h
        cases h
        exact .refl c
  | group g =>
    rw [has_perm_group hid] at h
    exact has_perm_loop_cacheLe env (normPerm perm) fuel c [obj] h

/-! ### Claim theorems -/

/-- Claim C2: a checker bound to an inactive user answers `false` to every
`has_perm` query, whatever the permission, object, grants, and superuser
flag; the state is untouched, no store query is issued, and the result
holds even with zero traversal fuel (no parent traversal happens). -/
theorem claim_C2 (env : Env) (fuel : Nat) (perm : String) (c : Checker)
    (obj : Obj) (u : User) (hid : c.identity = .user u)
    (ha : u.is_active = false) :
    has_perm env fuel perm c obj = some (false, c, 0) :=
  has_perm_user_inactive hid ha

theorem claim_C2_witness :
    has_perm envW 0 "view" (Checker.init (.user inactiveSuper)) objW =
      some (false, Checker.init (.user inactiveSuper), 0) :=
  claim_C2 envW 0 "view" (Checker.init (.user inactiveSuper)) objW
    inactiveSuper rfl rfl

/-- Claim C3: a checker bound to an active superuser answers `true` to
`has_perm` for any permission code present in the registered catalog, on any
object, issuing zero grant-store queries and with zero traversal fuel. -/
theorem claim_C3 (env : Env) (fuel : Nat) (P : String) (c : Checker)
    (obj : Obj) (u : User) (hid : c.identity = .user u)
    (ha : u.is_active = true) (hs : u.is_superuser = true)
    (hcat : ∃ p ∈ env.catalog, p.codename = P) :
    has_perm env fuel P c obj = some (true, c, 0) :=
  has_perm_user_superuser hid ha hs

theorem claim_C3_witness :
    has_perm envW 0 "view" (Checker.init (.user superUser)) objW =
      some (true, Checker.init (.user superUser), 0) :=
  claim_C3 envW 0 "view" (Checker.init (.user superUser)) objW superUser rfl
    rfl rfl (by decide)

/-- Claim C10: a checker bound to an active superuser answers `true` to
`has_perm` for every permission string, including codes absent from the
registered catalog; the call returns with the cache untouched and zero
store queries. -/
theorem claim_C10 (env : Env) (fuel : Nat) (P : String) (c : Checker)
    (obj : Obj) (u : User) (hid : c.identity = .user u)
    (ha : u.is_active = true) (hs : u.is_superuser = true) :
    has_perm env fuel P c obj = some (true, c, 0) :=
  has_perm_user_superuser hid ha hs

theorem claim_C10_witness :
    has_perm envW 0 "no_such_code" (Checker.init (.user superUser)) objW =
      some (true, Checker.init (.user superUser), 0) :=
  claim_C10 envW 0 "no_such_code" (Checker.init (.user superUser)) objW
    superUser rfl rfl rfl

/-- Claim C7: `__get_raw_perms` checks the inactive flag before the
superuser flag, so an inactive superuser gets the empty raw set, not the
catalog, and a fresh checker's `get_perms` is empty on every object. -/
theorem claim_C7 (env : Env) (u : User) (obj : Obj) (ha : u.is_active = false)
    (hs : u.is_superuser = true) :
    get_raw_perms env (.user u) obj = [] ∧
    (get_perms env (Checker.init (.user u)) obj true).1 = [] := by
  have h1 : get_raw_perms env (.user u) obj = [] := by
    unfold get_raw_perms
    simp [ha]
  refine ⟨h1, ?_⟩
  rw [get_perms_uncached
    (show (Checker.init (.user u)).obj_perms_cache.lookup
        (get_local_cache_key obj) = none from rfl)]
  show renderPerms (get_raw_perms env (Checker.init (.user u)).identity obj)
      obj true = []
  show renderPerms (get_raw_perms env (.user u) obj) obj true = []
  rw [h1]
  rfl

theorem claim_C7_witness :
    get_raw_perms envW (.user inactiveSuper) objW = [] ∧
    (get_perms envW (Checker.init (.user inactiveSuper)) objW true).1 = [] :=
  claim_C7 envW inactiveSuper objW rfl rfl

/-- Claim C5: `has_perm` is idempotent on a checker instance: rerunning the
same query from the state the first call produced returns the same answer
and the same state while issuing zero further grant-store queries (the raw
permissions were cached under the object's key by the first call). -/
theorem claim_C5 (env : Env) (fuel : Nat) (perm : String) (c : Checker)
    (obj : Obj) (r : Bool) (c1 : Checker) (q : Nat)
    (h : has_perm env fuel perm c obj = some (r, c1, q)) :
    has_perm env fuel perm c1 obj = some (r, c1, 0) := by
  cases hid : c.identity with
  | user u =>
    rcases hact : u.is_active with _ | _
    · rw [has_perm_user_inactive hid hact] at h
      cases h
      rw [has_perm_user_inactive hid hact]
    · rcases hsup : u.is_superuser with _ | _
      · rw [has_perm_user_active hid hact hsup] at h
        have hid1 : c1.identity = .user u :=
          (has_perm_loop_cacheLe env (normPerm perm) fuel c [obj] h).1.trans hid
        rw [has_perm_user_active hid1 hact hsup]
        exact has_perm_loop_stable env (normPerm perm) fuel c [obj] h
      · rw [has_perm_user_superuser hid hact hsup] at h
        cases h
        rw [has_perm_user_superuser hid hact hsup]
  | group g =>
    rw [has_perm_group hid] at h
    have hid1 : c1.identity = .group g :=
      (has_perm_loop_cacheLe env (normPerm perm) fuel c [obj] h).1.trans hid
    rw [has_perm_group hid1]
    exact has_perm_loop_stable env (normPerm perm) fuel c [obj] h

theorem claim_C5_witness :
    has_perm envW 1 "view"
        ⟨.group 1, [((1, 7), [viewPerm])]⟩ objW =
      some (true, ⟨.group 1, [((1, 7), [viewPerm])]⟩, 0) :=
  claim_C5 envW 1 "view" (Checker.init (.group 1)) objW true
    ⟨.group 1, [((1, 7), [viewPerm])]⟩ 1 (by decide)

/-- Claim C9: the per-instance cache starts empty at construction, a
`get_perms` call whose key is already cached writes nothing, and every
checker operation only extends the cache: an entry present before an
operation is present with the same value afterwards (write-once, no
eviction, no overwrite). -/
theorem claim_C9 :
    (∀ i, (Checker.init i).obj_perms_cache = []) ∧
    (∀ (env : Env) (c : Checker) (obj : Obj) (fct : Bool),
      CacheLe c (get_perms env c obj fct).2.1 ∧
      ∀ v, c.obj_perms_cache.lookup (get_local_cache_key obj) = some v →
        (get_perms env c obj fct).2.1 = c) ∧
    (∀ (env : Env) (fuel : Nat) (perm : String) (c : Checker) (obj : Obj)
      (r : Bool) (c' : Checker) (q : Nat),
      has_perm env fuel perm c obj = some (r, c', q) → CacheLe c c') := by
  refine ⟨fun _ => rfl, fun env c obj fct => ⟨?_, fun v hv => ?_⟩,
    fun env fuel perm c obj r c' q h => has_perm_cacheLe h⟩
  · exact (get_perms_spec env c obj fct).choose_spec.2.2
  · rw [get_perms_cached hv]

theorem claim_C9_witness :
    CacheLe (Checker.init (.user activeUser))
      (get_perms envW (Checker.init (.user activeUser)) objW true).2.1 :=
  (claim_C9.2.1 envW (Checker.init (.user activeUser)) objW true).1

end Guardian

namespace Guardian

lemma splitDots_ne_nil (l : List Char) : splitDots l ≠ [] := by
  cases l with
  | nil => simp [splitDots]
  | cons ch rest =>
    unfold splitDots
    by_cases h : ch = '.'
    · simp [h]
    · simp only [h, if_false]
      rcases splitDots rest with _ | ⟨w, ws⟩ <;> simp

lemma getLastD_congr {α : Type} {l : List α} (h : l ≠ []) (d₁ d₂ : α) :
    l.getLastD d₁ = l.getLastD d₂ := by
  cases l with
  | nil => exact absurd rfl h
  | cons a l => rw [List.getLastD_cons, List.getLastD_cons]

lemma splitDots_applabel (l : List Char) :
    splitDots ('a' :: 'p' :: 'p' :: '.' :: l) = ['a', 'p', 'p'] :: splitDots l := by
  simp [splitDots]

lemma normPerm_applabel (code : String) :
    normPerm ("app." ++ code) = normPerm code := by
  unfold normPerm
  have hdata : ("app." ++ code).data = 'a' :: 'p' :: 'p' :: '.' :: code.data := by
    rw [String.data_append]
    rfl
  rw [hdata, splitDots_applabel, List.getLastD_cons]
  exact congrArg String.mk (getLastD_congr (splitDots_ne_nil code.data) _ _)

lemma renderPerms_false (perms : List Permission) (obj : Obj) :
    renderPerms perms obj false = perms.map Permission.codename := rfl

/-- Claim C1 as stated fails on the code: `activeUser` (active,
non-superuser) holds a direct grant for codename "view" on `objW`, yet
`getPerms(objW)` does not contain "view", because the granted permission is
declared for a different content type and `get_perms` filters by the
object's content type. -/
theorem claim_C1_counterexample :
    (∃ g ∈ envM.userGrants, g.user = activeUser.id ∧
      g.content_type = objW.ctype ∧ g.object_pk = objW.pk ∧
      g.permission.codename = "view") ∧
    "view" ∉ (get_perms envM (Checker.init (.user activeUser)) objW true).1 := by
  decide

/-- Claim C1 (amended): for a fresh checker bound to an active non-superuser
user, `getPerms(O)` contains codename `P` iff a direct grant for `P` on `O`
exists for the user, or a group the user belongs to holds a grant for `P` on
`O`, where in both cases the granted permission is one declared for `O`'s
content type; direct and group-mediated results are unioned. -/
theorem claim_C1 (env : Env) (u : User) (obj : Obj) (P : String)
    (ha : u.is_active = true) (hs : u.is_superuser = false) :
    P ∈ (get_perms env (Checker.init (.user u)) obj true).1 ↔
      (∃ g ∈ env.userGrants, g.user = u.id ∧ g.content_type = obj.ctype ∧
        g.object_pk = obj.pk ∧ g.permission.content_type = obj.ctype ∧
        g.permission.codename = P) ∨
      (∃ g ∈ env.groupGrants, g.group ∈ u.groups ∧
        g.content_type = obj.ctype ∧ g.object_pk = obj.pk ∧
        g.permission.content_type = obj.ctype ∧
        g.permission.codename = P) := by
  rw [get_perms_uncached
    (show (Checker.init (.user u)).obj_perms_cache.lookup
        (get_local_cache_key obj) = none from rfl)]
  show P ∈ renderPerms (get_raw_perms env (.user u) obj) obj true ↔ _
  unfold get_raw_perms renderPerms userQuery groupQuery
  simp only [ha, hs, Bool.not_true, Bool.false_eq_true, if_false, if_true,
    List.filter_append, List.map_append, List.mem_append, List.mem_map,
    List.mem_filter, Bool.and_eq_true, beq_iff_eq]
  constructor
  · rintro (⟨p, ⟨⟨g, ⟨hg, ⟨hu, hct⟩, hpk⟩, rfl⟩, hpct⟩, hpcn⟩ |
      ⟨p, ⟨⟨g, ⟨hg, ⟨hgrp, hct⟩, hpk⟩, rfl⟩, hpct⟩, hpcn⟩)
    · exact Or.inl ⟨g, hg, hu, hct, hpk, hpct, hpcn⟩
    · exact Or.inr ⟨g, hg, List.elem_iff.mp hgrp, hct, hpk, hpct, hpcn⟩
  · rintro (⟨g, hg, hu, hct, hpk, hpct, hpcn⟩ |
      ⟨g, hg, hgrp, hct, hpk, hpct, hpcn⟩)
    · exact Or.inl ⟨g.permission, ⟨⟨g, ⟨hg, ⟨hu, hct⟩, hpk⟩, rfl⟩, hpct⟩, hpcn⟩
    · exact Or.inr ⟨g.permission,
        ⟨⟨g, ⟨hg, ⟨List.elem_iff.mpr hgrp, hct⟩, hpk⟩, rfl⟩, hpct⟩, hpcn⟩

theorem claim_C1_witness :
    "view" ∈ (get_perms envW (Checker.init (.user activeUser)) objW true).1 :=
  (claim_C1 envW activeUser objW "view" rfl rfl).mpr (Or.inr (by decide))

lemma key_beq_false {o o' : Obj} (h : o ≠ o') :
    (get_local_cache_key o == get_local_cache_key o') = false := by
  unfold get_local_cache_key
  rw [beq_eq_false_iff_ne]
  intro hk
  apply h
  cases o
  cases o'
  simp only [Prod.mk.injEq] at hk
  simp [hk.1, hk.2]

lemma lookup_cons_ne {k k' : Nat × Nat} {v : List Permission}
    {rest : List ((Nat × Nat) × List Permission)} (h : (k == k') = false) :
    List.lookup k ((k', v) :: rest) = List.lookup k rest := by
  simp [List.lookup, h]

lemma has_perm_loopId {env : Env} {fuel : Nat} {perm : String} {c : Checker}
    {i : Identity} (hi : loopIdentity i) (hid : c.identity = i) (obj : Obj) :
    has_perm env fuel perm c obj =
      has_perm_loop env (normPerm perm) fuel c [obj] := by
  cases i with
  | user u => exact has_perm_user_active hid hi.1 hi.2
  | group g => exact has_perm_group hid

lemma has_perm_loop_nil (env : Env) (perm : String) (fuel : Nat)
    (c : Checker) :
    has_perm_loop env perm (fuel + 1) c [] = some (false, c, 0) := rfl

lemma has_perm_loop_singleton (env : Env) (perm : String) (fuel : Nat)
    (c : Checker) (obj : Obj) {codes : List String} {c' : Checker} {q : Nat}
    (hgp : get_perms env c obj false = (codes, c', q)) :
    has_perm_loop env perm (fuel + 1) c [obj] =
      if perm ∈ codes then some (true, c', q)
      else
        match has_perm_loop env perm fuel c' (parentsOf env obj) with
        | none => none
        | some (b, c2, q2) => some (b, c2, q + q2) := by
  simp only [has_perm_loop, List.getLast?_singleton, List.dropLast_single,
    List.nil_append, hgp]
  cases hp : env.parents obj with
  | none => simp [parentsOf, hp]
  | some ps => simp [parentsOf, hp]

/-- Claim C4: along a parent chain `o3 → o2 → o1` (with `o1` lacking the
parent capability, so traversal stops there), a non-shortcut identity whose
grant for (already bare) code `P` sits only on `o1` gets
`has_perm(P, o3) = true`; if no object in the chain carries the code, it
gets `false`. -/
theorem claim_C4 (env : Env) (i : Identity) (P : String) (o1 o2 o3 : Obj)
    (hi : loopIdentity i) (hP : normPerm P = P)
    (h3 : env.parents o3 = some [o2]) (h2 : env.parents o2 = some [o1])
    (h1 : env.parents o1 = none)
    (d12 : o1 ≠ o2) (d13 : o1 ≠ o3) (d23 : o2 ≠ o3) :
    (P ∈ (get_raw_perms env i o1).map Permission.codename →
      P ∉ (get_raw_perms env i o2).map Permission.codename →
      P ∉ (get_raw_perms env i o3).map Permission.codename →
      (has_perm env 4 P (Checker.init i) o3).map (·.1) = some true) ∧
    (P ∉ (get_raw_perms env i o1).map Permission.codename →
      P ∉ (get_raw_perms env i o2).map Permission.codename →
      P ∉ (get_raw_perms env i o3).map Permission.codename →
      (has_perm env 4 P (Checker.init i) o3).map (·.1) = some false) := by
  have hid0 : (Checker.init i).identity = i := rfl
  have hk23 := key_beq_false d23
  have hk12 := key_beq_false d12
  have hk13 := key_beq_false d13
  have e3 : get_perms env (Checker.init i) o3 false =
      ((get_raw_perms env i o3).map Permission.codename,
       (⟨i, [(get_local_cache_key o3, get_raw_perms env i o3)]⟩ : Checker),
       storeQueries i) := rfl
  have e2 : get_perms env
      (⟨i, [(get_local_cache_key o3, get_raw_perms env i o3)]⟩ : Checker)
      o2 false =
      ((get_raw_perms env i o2).map Permission.codename,
       (⟨i, [(get_local_cache_key o2, get_raw_perms env i o2),
             (get_local_cache_key o3, get_raw_perms env i o3)]⟩ : Checker),
       storeQueries i) := by
    have hlk : List.lookup (get_local_cache_key o2)
        [(get_local_cache_key o3, get_raw_perms env i o3)] = none := by
      rw [lookup_cons_ne hk23]
      rfl
    rw [get_perms_uncached hlk]
    rfl
  have e1 : get_perms env
      (⟨i, [(get_local_cache_key o2, get_raw_perms env i o2),
            (get_local_cache_key o3, get_raw_perms env i o3)]⟩ : Checker)
      o1 false =
      ((get_raw_perms env i o1).map Permission.codename,
       (⟨i, [(get_local_cache_key o1, get_raw_perms env i o1),
             (get_local_cache_key o2, get_raw_perms env i o2),
             (get_local_cache_key o3, get_raw_perms env i o3)]⟩ : Checker),
       storeQueries i) := by
    have hlk : List.lookup (get_local_cache_key o1)
        [(get_local_cache_key o2, get_raw_perms env i o2),
         (get_local_cache_key o3, get_raw_perms env i o3)] = none := by
      rw [lookup_cons_ne hk12, lookup_cons_ne hk13]
      rfl
    rw [get_perms_uncached hlk]
    rfl
  have hp3 : parentsOf env o3 = [o2] := by simp [parentsOf, h3]
  have hp2 : parentsOf env o2 = [o1] := by simp [parentsOf, h2]
  have hp1 : parentsOf env o1 = [] := by simp [parentsOf, h1]
  constructor
  · intro hm1 hm2 hm3
    rw [has_perm_loopId hi hid0 o3, hP,
      show (4 : Nat) = 3 + 1 from rfl, has_perm_loop_singleton env P 3 _ _ e3,
      if_neg hm3, hp3,
      show (3 : Nat) = 2 + 1 from rfl, has_perm_loop_singleton env P 2 _ _ e2,
      if_neg hm2, hp2,
      show (2 : Nat) = 1 + 1 from rfl, has_perm_loop_singleton env P 1 _ _ e1,
      if_pos hm1]
    rfl
  · intro hm1 hm2 hm3
    rw [has_perm_loopId hi hid0 o3, hP,
      show (4 : Nat) = 3 + 1 from rfl, has_perm_loop_singleton env P 3 _ _ e3,
      if_neg hm3, hp3,
      show (3 : Nat) = 2 + 1 from rfl, has_perm_loop_singleton env P 2 _ _ e2,
      if_neg hm2, hp2,
      show (2 : Nat) = 1 + 1 from rfl, has_perm_loop_singleton env P 1 _ _ e1,
      if_neg hm1, hp1,
      show (1 : Nat) = 0 + 1 from rfl, has_perm_loop_nil]
    rfl

theorem claim_C4_witness :
    (has_perm chainEnv 4 "view" (Checker.init (.user activeUser)) o3W).map
      (·.1) = some true :=
  (claim_C4 chainEnv (.user activeUser) "view" o1W o2W o3W ⟨rfl, rfl⟩
    (by decide) (by decide) (by decide) (by decide) (by decide) (by decide)
    (by decide)).1 (by decide) (by decide) (by decide)

lemma tbound_le_succ (env : Env) : ∀ (k : Nat) (o : Obj),
    tbound env k o ≤ tbound env (k + 1) o := by
  intro k
  induction k with
  | zero =>
    intro o
    show (1 : Nat) ≤ 1 + ((parentsOf env o).map (tbound env 0)).sum
    omega
  | succ k ih =>
    intro o
    show 1 + ((parentsOf env o).map (tbound env k)).sum ≤
      1 + ((parentsOf env o).map (tbound env (k + 1))).sum
    have hs : ((parentsOf env o).map (tbound env k)).sum ≤
        ((parentsOf env o).map (tbound env (k + 1))).sum :=
      List.sum_le_sum (fun x _ => ih x)
    omega

lemma tbound_mono (env : Env) {k k' : Nat} (h : k ≤ k') (o : Obj) :
    tbound env k o ≤ tbound env k' o := by
  induction h with
  | refl => exact Nat.le_refl _
  | step _ ih => exact Nat.le_trans ih (tbound_le_succ env _ o)

lemma one_le_tbound (env : Env) (k : Nat) (o : Obj) : 1 ≤ tbound env k o := by
  cases k with
  | zero => exact Nat.le_refl 1
  | succ k => exact Nat.le_add_right 1 _

lemma tbound_phi_step (env : Env) (root : Obj) (rank : Obj → Nat)
    (hr : ∀ o, Reach env root o → ∀ o' ∈ parentsOf env o, rank o' < rank o)
    {o : Obj} (ho : Reach env root o) :
    1 + ((parentsOf env o).map (fun p => tbound env (rank p) p)).sum ≤
      tbound env (rank o) o := by
  cases hrk : rank o with
  | zero =>
    have hemp : parentsOf env o = [] := by
      cases hp : parentsOf env o with
      | nil => rfl
      | cons x xs =>
        exfalso
        have hx := hr o ho x (by rw [hp]; exact List.mem_cons_self x xs)
        rw [hrk] at hx
        omega
    rw [hemp]
    show (1 : Nat) + ([] : List Nat).sum ≤ 1
    simp
  | succ r =>
    have hdef : tbound env (r + 1) o =
        1 + ((parentsOf env o).map (tbound env r)).sum := rfl
    have hle : ((parentsOf env o).map (fun p => tbound env (rank p) p)).sum ≤
        ((parentsOf env o).map (tbound env r)).sum := by
      apply List.sum_le_sum
      intro p hp
      have hpr := hr o ho p hp
      rw [hrk] at hpr
      exact tbound_mono env (by omega) p
    rw [hdef]
    omega

lemma has_perm_loop_terminates (env : Env) (root : Obj) (rank : Obj → Nat)
    (hr : ∀ o, Reach env root o → ∀ o' ∈ parentsOf env o, rank o' < rank o)
    (perm : String) :
    ∀ (N : Nat) (ws : List Obj) (c : Checker),
      (∀ o ∈ ws, Reach env root o) →
      (ws.map (fun p => tbound env (rank p) p)).sum ≤ N →
      (has_perm_loop env perm (N + 1) c ws).isSome := by
  intro N
  induction N using Nat.strong_induction_on with
  | _ N ih =>
    intro ws c hreach hsum
    simp only [has_perm_loop]
    cases hL : ws.getLast? with
    | none => rfl
    | some obj =>
      obtain ⟨l', rfl⟩ := List.getLast?_eq_some_iff.mp hL
      simp only []
      by_cases hmem : perm ∈ (get_perms env c obj false).1
      · rw [if_pos hmem]
        rfl
      · rw [if_neg hmem]
        rw [List.dropLast_concat]
        have hnext : (match env.parents obj with
            | some ps => l' ++ ps
            | none => l') = l' ++ parentsOf env obj := by
          cases hp : env.parents obj <;> simp [parentsOf, hp]
        rw [hnext]
        have hobj : Reach env root obj :=
          hreach obj (List.mem_append.mpr (Or.inr (List.mem_singleton.mpr rfl)))
        have hreach' : ∀ o ∈ l' ++ parentsOf env obj, Reach env root o := by
          intro o ho
          rcases List.mem_append.mp ho with h | h
          · exact hreach o (List.mem_append.mpr (Or.inl h))
          · exact Reach.step hobj h
        have hstep := tbound_phi_step env root rank hr hobj
        have hsum2 : (l'.map (fun p => tbound env (rank p) p)).sum +
            tbound env (rank obj) obj ≤ N := by
          have := hsum
          simp only [List.map_append, List.sum_append, List.map_cons,
            List.map_nil, List.sum_cons, List.sum_nil] at this
          omega
        have hone : 1 ≤ tbound env (rank obj) obj := one_le_tbound env _ obj
        obtain ⟨M, rfl⟩ : ∃ M, N = M + 1 := ⟨N - 1, by omega⟩
        have hsum' : ((l' ++ parentsOf env obj).map
            (fun p => tbound env (rank p) p)).sum ≤ M := by
          simp only [List.map_append, List.sum_append]
          omega
        have hrec := ih M (by omega) (l' ++ parentsOf env obj)
          (get_perms env c obj false).2.1 hreach' hsum'
        obtain ⟨⟨b, c2, q2⟩, hres⟩ := Option.isSome_iff_exists.mp hrec
        rw [hres]
        rfl

lemma get_raw_perms_cycEnv (i : Identity) (obj : Obj) :
    get_raw_perms cycEnv i obj = [] := by
  cases i with
  | user u =>
    unfold get_raw_perms userQuery groupQuery
    cases u.is_active <;> cases u.is_superuser <;> simp [cycEnv]
  | group g =>
    unfold get_raw_perms groupIdentityQuery
    simp [cycEnv]

lemma cyc_loop_none : ∀ (fuel : Nat) (c : Checker),
    (c.obj_perms_cache.lookup (get_local_cache_key cycObj) = none ∨
     c.obj_perms_cache.lookup (get_local_cache_key cycObj) = some []) →
    has_perm_loop cycEnv "view" fuel c [cycObj] = none := by
  intro fuel
  induction fuel with
  | zero => intro c _; rfl
  | succ fuel ih =>
    intro c hc
    have hpar : parentsOf cycEnv cycObj = [cycObj] := by simp [parentsOf, cycEnv]
    rcases hc with hnone | hsome
    · have e : get_perms cycEnv c cycObj false =
          ([], ⟨c.identity,
            (get_local_cache_key cycObj, []) :: c.obj_perms_cache⟩,
           storeQueries c.identity) := by
        rw [get_perms_uncached hnone, get_raw_perms_cycEnv]
        rfl
      rw [has_perm_loop_singleton cycEnv "view" fuel c cycObj e,
        if_neg (by simp), hpar,
        ih _ (Or.inr (by simp [List.lookup]))]
    · have e : get_perms cycEnv c cycObj false = ([], c, 0) := by
        rw [get_perms_cached hsome]
        rfl
      rw [has_perm_loop_singleton cycEnv "view" fuel c cycObj e,
        if_neg (by simp), hpar, ih c (Or.inr hsome)]

/-- Claim C8: (a) `has_perm` terminates on every object whose reachable
parent-delegation graph admits a strictly decreasing rank along parent
edges (i.e. is acyclic; it is finite since each parent list is finite):
some finite fuel makes the worklist finish.  (b) Acyclicity is needed: with
a self-loop in the parent relation and no grant anywhere, no amount of fuel
finishes the traversal — the code has no cycle guard. -/
theorem claim_C8 :
    (∀ (env : Env) (root : Obj) (rank : Obj → Nat),
      (∀ o, Reach env root o → ∀ o' ∈ parentsOf env o, rank o' < rank o) →
      ∀ (perm : String) (c : Checker),
        ∃ fuel, (has_perm env fuel perm c root).isSome) ∧
    (∀ fuel, has_perm cycEnv fuel "view"
        (Checker.init (.user activeUser)) cycObj = none) := by
  constructor
  · intro env root rank hr perm c
    have hstart : ∀ o ∈ [root], Reach env root o := by
      intro o ho
      rw [List.mem_singleton] at ho
      rw [ho]
      exact Reach.refl
    have hstartsum : (([root]).map (fun p => tbound env (rank p) p)).sum ≤
        tbound env (rank root) root := by
      simp
    cases hid : c.identity with
    | user u =>
      rcases hact : u.is_active with _ | _
      · exact ⟨0, by rw [has_perm_user_inactive hid hact]; rfl⟩
      · rcases hsup : u.is_superuser with _ | _
        · refine ⟨tbound env (rank root) root + 1, ?_⟩
          rw [has_perm_user_active hid hact hsup]
          exact has_perm_loop_terminates env root rank hr (normPerm perm) _
            [root] c hstart hstartsum
        · exact ⟨0, by rw [has_perm_user_superuser hid hact hsup]; rfl⟩
    | group g =>
      refine ⟨tbound env (rank root) root + 1, ?_⟩
      rw [has_perm_group hid]
      exact has_perm_loop_terminates env root rank hr (normPerm perm) _
        [root] c hstart hstartsum
  · intro fuel
    rw [has_perm_user_active rfl rfl rfl]
    exact cyc_loop_none fuel (Checker.init (.user activeUser)) (Or.inl rfl)

theorem claim_C8_witness :
    ∃ fuel,
      (has_perm envW fuel "view" (Checker.init (.user activeUser))
        objW).isSome :=
  claim_C8.1 envW objW (fun _ => 0)
    (by intro o _ o' hp; simp [parentsOf, envW] at hp) "view"
    (Checker.init (.user activeUser))

/-- Claim C6: `has_perm` is insensitive to an app-label prefix: querying
`"app." ++ code` gives exactly the same outcome as querying `code`, on any
checker state, object, environment and fuel, because `has_perm` keeps only
the segment after the last dot. -/
theorem claim_C6 (env : Env) (fuel : Nat) (c : Checker) (obj : Obj)
    (code : String) :
    has_perm env fuel ("app." ++ code) c obj =
      has_perm env fuel code c obj := by
  unfold has_perm
  rw [normPerm_applabel]

end Guardian
